import Mathlib

/-!
Shallow embedding of the `winlibtools` create/list pipeline (src/src/main.rs).

The program reads a Windows static-library archive, decides for each member
whether it is excluded (by explicit byte offset, or — under `--exclude-idata` —
because it is an import-table contributor), and writes one or two rebuilt
archives.  The archive/COFF parsers and the archive writer come from the
external `object` and `ar_archive_writer` crates; they are modelled here as
abstract function parameters (`decode`, `coffParse`, `importParse`, `encode`)
so that the theorems quantify over every possible behaviour of those
collaborators, while the control flow of `create_lib` and `list_lib` is
embedded faithfully from the source.

Bytes are `Nat` (< 256 in practice), byte buffers are `List Nat`, file paths
(`OsString`) are abstracted as `Nat`.
-/

namespace Winlib

/-- A decoded archive member, as exposed by `ArchiveFile::parse` /
`archive.members()` in `create_lib`: raw name bytes (`member.name()`),
`member.file_range()` = (offset, size), optional-metadata fields from the
member header, and the payload bytes (`member.data(&*data)`). -/
structure ArchiveMember where
  name : List Nat
  offset : Nat
  size : Nat
  mtime : Nat
  uid : Nat
  gid : Nat
  mode : Nat
  payload : List Nat
  deriving DecidableEq

deriving instance DecidableEq for Except

/-- One section of a parsed COFF object, abstracted to the result of
`section.name(strings)` in the loop of `create_lib`: either the resolved raw
name bytes or an `object::Error` (modelled as a `Nat` token). -/
structure CoffSection where
  nameRes : Except Nat (List Nat)
  deriving DecidableEq

/-- The `CreateOptions` struct of the source: `exclude_idata`,
`exclude_offsets : Vec<u32>`, `save_excluded : Option<OsString>`. -/
structure CreateOptions where
  exclude_idata : Bool
  exclude_offsets : List Nat
  save_excluded : Option Nat
  deriving DecidableEq

/-- The errors `create_lib` can return (`WinlibError` in the source),
distinguished by which call produced them; external error payloads
(`object::Error`, `io::Error`) are opaque `Nat` tokens. -/
inductive CreateError where
  | notArchive (e : Nat)
  | sectionName (offset : Nat) (e : Nat)
  | unrecognised (offset : Nat) (e : Nat)
  | encodeErr (e : Nat)
  | writeErr (path : Nat)
  deriving DecidableEq

/-- `pat.hasPfx l` models `slice::starts_with`: `l` begins with `pat`,
compared element-wise as raw bytes. -/
def hasPfx : List Nat → List Nat → Bool
  | [], _ => true
  | _ :: _, [] => false
  | a :: pat, b :: l => a == b && hasPfx pat l

/-- The literal byte string `b".idata$"` from
`name.starts_with(b".idata$")`. -/
def idataPfx : List Nat := [0x2e, 0x69, 0x64, 0x61, 0x74, 0x61, 0x24]

/-- The section scan of `create_lib` (the `for section in
file.coff_section_table().iter()` loop): resolve each section name in order;
a resolution error aborts with that error; the first resolved name starting
with `.idata$` stops the scan with `true`; exhausting the table yields
`false`. -/
def idataScan : List CoffSection → Except Nat Bool
  | [] => .ok false
  | s :: rest =>
    match s.nameRes with
    | .error e => .error e
    | .ok n => if hasPfx idataPfx n then .ok true else idataScan rest

/-- Is a continuation byte (`0x80..=0xBF`)? Used by the UTF-8 model below. -/
def isCont (b : Nat) : Bool := 0x80 ≤ b && b ≤ 0xBF

/-- Allowed range of the first continuation byte for a 3-byte lead, as in
Rust's UTF-8 validation (`0xE0` forbids overlongs, `0xED` forbids
surrogates). -/
def cont3ok (lead b : Nat) : Bool :=
  if lead == 0xE0 then 0xA0 ≤ b && b ≤ 0xBF
  else if lead == 0xED then 0x80 ≤ b && b ≤ 0x9F
  else isCont b

/-- Allowed range of the first continuation byte for a 4-byte lead, as in
Rust's UTF-8 validation (`0xF0` forbids overlongs, `0xF4` caps at
U+10FFFF). -/
def cont4ok (lead b : Nat) : Bool :=
  if lead == 0xF0 then 0x90 ≤ b && b ≤ 0xBF
  else if lead == 0xF4 then 0x80 ≤ b && b ≤ 0x8F
  else isCont b

/-- UTF-8 bytes of U+FFFD REPLACEMENT CHARACTER. -/
def replBytes : List Nat := [0xEF, 0xBF, 0xBD]

/-- Byte-level model of `String::from_utf8_lossy`: valid UTF-8 sequences are
copied verbatim; an invalid sequence is replaced by U+FFFD following the
maximal-subpart rule (the replacement consumes the valid prefix of the
sequence and rescanning resumes at the offending byte). -/
def utf8LossyBytes : List Nat → List Nat
  | [] => []
  | b :: rest =>
    if b ≤ 0x7F then b :: utf8LossyBytes rest
    else if 0xC2 ≤ b && b ≤ 0xDF then
      match rest with
      | [] => replBytes
      | b1 :: rest1 =>
        if isCont b1 then b :: b1 :: utf8LossyBytes rest1
        else replBytes ++ utf8LossyBytes (b1 :: rest1)
    else if 0xE0 ≤ b && b ≤ 0xEF then
      match rest with
      | [] => replBytes
      | b1 :: rest1 =>
        if cont3ok b b1 then
          match rest1 with
          | [] => replBytes
          | b2 :: rest2 =>
            if isCont b2 then b :: b1 :: b2 :: utf8LossyBytes rest2
            else replBytes ++ utf8LossyBytes (b2 :: rest2)
        else replBytes ++ utf8LossyBytes (b1 :: rest1)
    else if 0xF0 ≤ b && b ≤ 0xF4 then
      match rest with
      | [] => replBytes
      | b1 :: rest1 =>
        if cont4ok b b1 then
          match rest1 with
          | [] => replBytes
          | b2 :: rest2 =>
            if isCont b2 then
              match rest2 with
              | [] => replBytes
              | b3 :: rest3 =>
                if isCont b3 then b :: b1 :: b2 :: b3 :: utf8LossyBytes rest3
                else replBytes ++ utf8LossyBytes (b3 :: rest3)
            else replBytes ++ utf8LossyBytes (b2 :: rest2)
        else replBytes ++ utf8LossyBytes (b1 :: rest1)
    else replBytes ++ utf8LossyBytes rest

/-- Validity of a byte list as UTF-8, with the same case structure as
`utf8LossyBytes` (Rust's `str::from_utf8` acceptance). -/
def validUtf8 : List Nat → Bool
  | [] => true
  | b :: rest =>
    if b ≤ 0x7F then validUtf8 rest
    else if 0xC2 ≤ b && b ≤ 0xDF then
      match rest with
      | [] => false
      | b1 :: rest1 => isCont b1 && validUtf8 rest1
    else if 0xE0 ≤ b && b ≤ 0xEF then
      match rest with
      | [] => false
      | b1 :: rest1 =>
        cont3ok b b1 &&
          match rest1 with
          | [] => false
          | b2 :: rest2 => isCont b2 && validUtf8 rest2
    else if 0xF0 ≤ b && b ≤ 0xF4 then
      match rest with
      | [] => false
      | b1 :: rest1 =>
        cont4ok b b1 &&
          match rest1 with
          | [] => false
          | b2 :: rest2 =>
            isCont b2 &&
              match rest2 with
              | [] => false
              | b3 :: rest3 => isCont b3 && validUtf8 rest3
    else false

/-- The `ar_archive_writer::NewArchiveMember` record as built in
`create_lib`. -/
structure NewMember where
  buf : List Nat
  memberName : List Nat
  mtime : Nat
  uid : Nat
  gid : Nat
  perms : Nat
  deriving DecidableEq

/-- `NewArchiveMember::new(data, &DEFAULT_OBJECT_READER, name.into())` with
`name = String::from_utf8_lossy(member.name())`: the payload and the lossily
decoded name are kept; `NewArchiveMember::new` fills the header defaults
`mtime = 0`, `uid = 0`, `gid = 0`, `perms = 0o644` (the source passes no
metadata from the decoded member). -/
def newMember (m : ArchiveMember) : NewMember :=
  { buf := m.payload
    memberName := utf8LossyBytes m.name
    mtime := 0
    uid := 0
    gid := 0
    perms := 0o644 }

/-- The per-member exclusion decision of the loop body of `create_lib`,
parameterised by the external parsers: `coffParse` models
`CoffFile::<_, ImageFileHeader>::parse` (returning the section table with
name-resolution results), `importParse` models whether `ImportFile::parse`
succeeds.  `.ok true` = excluded, `.ok false` = kept, `.error` aborts the
run.  The offset test truncates `member.file_range().0` to `u32`. -/
def memberDecision (coffParse : List Nat → Except Nat (List CoffSection))
    (importParse : List Nat → Bool) (opts : CreateOptions)
    (m : ArchiveMember) : Except CreateError Bool :=
  if (m.offset % 2 ^ 32) ∈ opts.exclude_offsets then .ok true
  else if opts.exclude_idata then
    match coffParse m.payload with
    | .ok secs =>
      match idataScan secs with
      | .error e => .error (.sectionName m.offset e)
      | .ok b => .ok b
    | .error e =>
      if importParse m.payload then .ok true
      else .error (.unrecognised m.offset e)
  else .ok false

/-- The member loop of `create_lib`: decide each member in order (the first
error aborts the whole run), build its `NewArchiveMember`, and push it onto
`extracted_members` (only when `save_excluded` is set) or
`included_members`.  Returns `(extracted_members, included_members)`. -/
def processMembers (coffParse : List Nat → Except Nat (List CoffSection))
    (importParse : List Nat → Bool) (opts : CreateOptions) :
    List ArchiveMember → Except CreateError (List NewMember × List NewMember)
  | [] => .ok ([], [])
  | m :: rest =>
    match memberDecision coffParse importParse opts m with
    | .error e => .error e
    | .ok excl =>
      match processMembers coffParse importParse opts rest with
      | .error e => .error e
      | .ok (ext, inc) =>
        if excl then
          if opts.save_excluded.isSome then .ok (newMember m :: ext, inc)
          else .ok (ext, inc)
        else .ok (ext, newMember m :: inc)

/-- The whole `create_lib` run, with the file system modelled explicitly:
`decode` is `ArchiveFile::parse` plus member/data extraction, `encode` is
`write_archive_to_stream`, and `writeOk p` tells whether `fs::write` to path
`p` succeeds.  The returned list records, in order, the `(path, bytes)` pairs
actually written to disk.  Mirroring the source: when `save_excluded` is set
the excluded archive is encoded and written first, then the kept archive is
encoded and written to `outLib`. -/
def createLib (decode : List Nat → Except Nat (List ArchiveMember))
    (coffParse : List Nat → Except Nat (List CoffSection))
    (importParse : List Nat → Bool)
    (encode : List NewMember → Except Nat (List Nat))
    (writeOk : Nat → Bool) (opts : CreateOptions) (outLib : Nat)
    (data : List Nat) :
    Except CreateError Unit × List (Nat × List Nat) :=
  match decode data with
  | .error e => (.error (.notArchive e), [])
  | .ok members =>
    match processMembers coffParse importParse opts members with
    | .error e => (.error e, [])
    | .ok (ext, inc) =>
      match opts.save_excluded with
      | some p =>
        match encode ext with
        | .error e => (.error (.encodeErr e), [])
        | .ok bufE =>
          if writeOk p then
            match encode inc with
            | .error e => (.error (.encodeErr e), [(p, bufE)])
            | .ok bufK =>
              if writeOk outLib then (.ok (), [(p, bufE), (outLib, bufK)])
              else (.error (.writeErr outLib), [(p, bufE)])
          else (.error (.writeErr p), [])
      | none =>
        match encode inc with
        | .error e => (.error (.encodeErr e), [])
        | .ok bufK =>
          if writeOk outLib then (.ok (), [(outLib, bufK)])
          else (.error (.writeErr outLib), [])

/-- The `list_lib` operation: decode the archive and report, per member in
container order, the `(offset, size, name)` triple it prints
(`member.file_range()` and the lossily decoded name).  No classification
function is consulted. -/
def listLib (decode : List Nat → Except Nat (List ArchiveMember))
    (data : List Nat) : Except Nat (List (Nat × Nat × List Nat)) :=
  match decode data with
  | .error e => .error e
  | .ok members => .ok (members.map fun m => (m.offset, m.size, utf8LossyBytes m.name))

/-! ## Helper lemmas -/

set_option maxHeartbeats 1600000 in
/-- Lossy UTF-8 decoding is the identity on valid UTF-8 byte sequences. -/
theorem utf8Lossy_of_valid : ∀ l, validUtf8 l = true → utf8LossyBytes l = l := by
  intro l
  induction l using utf8LossyBytes.induct <;>
    intro h <;>
    rw [utf8LossyBytes.eq_def] <;>
    rw [validUtf8.eq_def] at h <;>
    (try simp_all) <;>
    (try rfl) <;>
    split_ifs at h ⊢ <;>
    first
      | omega
      | simp_all

/-! ## Claims -/

/-- A concrete member whose name byte `0xFF` is not valid UTF-8. -/
def memberBadName : ArchiveMember :=
  { name := [0xFF], offset := 0x44, size := 2, mtime := 3, uid := 1,
    gid := 2, mode := 0o755, payload := [1, 2] }

/-- A concrete member carrying non-default source metadata. -/
def memberWithMeta : ArchiveMember :=
  { name := [0x61], offset := 0x44, size := 4, mtime := 1700000000, uid := 7,
    gid := 8, mode := 0o755, payload := [1] }

/-- A concrete member with a valid-UTF-8 name (`a` followed by U+00E9). -/
def memberGoodName : ArchiveMember :=
  { name := [0x61, 0xC3, 0xA9], offset := 0, size := 0, mtime := 0, uid := 0,
    gid := 0, mode := 0, payload := [] }

/-- Claim C3, counterexample: for a member whose name is the single byte
`0xFF` (not valid UTF-8), the name recorded for re-encoding is the UTF-8
encoding of U+FFFD, not the original byte sequence — lossy decoding is used
for the bytes handed to the archive writer, not only for display. -/
theorem c3_lossy_name_counterexample :
    (newMember memberBadName).memberName = [0xEF, 0xBF, 0xBD]
    ∧ [0xEF, 0xBF, 0xBD] ≠ [0xFF] := by
  constructor
  · rfl
  · decide

/-- Claim C3 (amended): the member name recorded for re-encoding is the
lossy UTF-8 decoding of the original name bytes; consequently a name is
preserved exactly whenever it is valid UTF-8, while invalid sequences are
replaced by U+FFFD in the re-encoded name as well. -/
theorem c3_name_preservation_amended :
    (∀ m : ArchiveMember, (newMember m).memberName = utf8LossyBytes m.name)
    ∧ (∀ m : ArchiveMember, validUtf8 m.name = true →
        (newMember m).memberName = m.name) := by
  refine ⟨fun m => rfl, fun m h => ?_⟩
  show utf8LossyBytes m.name = m.name
  exact utf8Lossy_of_valid m.name h

/-- Witness for the amended C3 theorem at a concrete valid-UTF-8 name. -/
theorem c3_name_preservation_amended_witness :
    (newMember memberGoodName).memberName = [0x61, 0xC3, 0xA9] :=
  c3_name_preservation_amended.2 memberGoodName (by decide)

/-- Claim C4, counterexample: a member carrying source metadata
`mtime = 1700000000`, `uid = 7`, `gid = 8`, `mode = 0o755` is re-encoded with
none of those values — `NewArchiveMember::new` installs the defaults
unconditionally, so source metadata is not preserved. -/
theorem c4_metadata_counterexample :
    (newMember memberWithMeta).mtime ≠ memberWithMeta.mtime
    ∧ (newMember memberWithMeta).uid ≠ memberWithMeta.uid
    ∧ (newMember memberWithMeta).gid ≠ memberWithMeta.gid
    ∧ (newMember memberWithMeta).perms ≠ memberWithMeta.mode := by
  refine ⟨?_, ?_, ?_, ?_⟩ <;> decide

/-- Claim C4 (amended): every member copied into a rebuilt archive gets the
fixed metadata `mtime = 0`, `uid = 0`, `gid = 0`, `mode = 0o644`, regardless
of the values in the source archive. -/
theorem c4_metadata_defaults_amended :
    ∀ m : ArchiveMember, (newMember m).mtime = 0 ∧ (newMember m).uid = 0 ∧
      (newMember m).gid = 0 ∧ (newMember m).perms = 0o644 :=
  fun _ => ⟨rfl, rfl, rfl, rfl⟩

/-- Claim C5: a member whose offset, truncated to `u32`, is in
`exclude_offsets` is excluded before any classification is consulted —
for every parser behaviour and every setting of `exclude_idata`, the
decision is `excluded`. -/
theorem c5_offset_exclusion_precedence :
    ∀ (coffParse : List Nat → Except Nat (List CoffSection))
      (importParse : List Nat → Bool) (opts : CreateOptions) (m : ArchiveMember),
      (m.offset % 2 ^ 32) ∈ opts.exclude_offsets →
      memberDecision coffParse importParse opts m = .ok true := by
  intro co im opts m h
  unfold memberDecision
  rw [if_pos h]

/-- Witness for C5: a member at offset `0x44` with a perfectly ordinary
`.text`-only object payload is excluded under
`exclude_offsets = [0x44]` even with `exclude_idata = false`. -/
theorem c5_offset_exclusion_witness :
    memberDecision (fun _ => .ok [⟨.ok [0x2e, 0x74, 0x65, 0x78, 0x74]⟩])
      (fun _ => false) ⟨false, [0x44], none⟩ memberWithMeta = .ok true :=
  c5_offset_exclusion_precedence _ _ _ _ (by decide)

/-- Claim C7: classification tries the stricter COFF-object parse first —
when it succeeds the import-descriptor parser is never consulted (the
decision is the same for every import parser); only on object-parse failure
is the import parse attempted, success excluding the member as an import
descriptor; and when both fail the run aborts with an error carrying the
original object-parse error as its cause. -/
theorem c7_classify_fallback_order :
    ∀ (coffParse : List Nat → Except Nat (List CoffSection))
      (importParse : List Nat → Bool) (opts : CreateOptions) (m : ArchiveMember),
      opts.exclude_idata = true →
      (m.offset % 2 ^ 32) ∉ opts.exclude_offsets →
      (∀ secs, coffParse m.payload = .ok secs →
          ∀ importParse2 : List Nat → Bool,
            memberDecision coffParse importParse opts m =
              memberDecision coffParse importParse2 opts m)
      ∧ (∀ e, coffParse m.payload = .error e → importParse m.payload = true →
          memberDecision coffParse importParse opts m = .ok true)
      ∧ (∀ e, coffParse m.payload = .error e → importParse m.payload = false →
          memberDecision coffParse importParse opts m =
            .error (.unrecognised m.offset e)) := by
  intro co im opts m hid hoff
  have key : ∀ im' : List Nat → Bool,
      memberDecision co im' opts m =
        match co m.payload with
        | .ok secs =>
          match idataScan secs with
          | .error e => .error (.sectionName m.offset e)
          | .ok b => .ok b
        | .error e =>
          if im' m.payload then .ok true else .error (.unrecognised m.offset e) := by
    intro im'
    unfold memberDecision
    rw [if_neg hoff, if_pos hid]
  refine ⟨fun secs hs im2 => ?_, fun e he him => ?_, fun e he him => ?_⟩
  · rw [key im, key im2, hs]
  · rw [key im]
    simp [he, him]
  · rw [key im]
    simp [he, him]

/-- Witness for C7 at concrete parsers: both parses fail, so the decision is
the `unrecognised` error carrying the object-parse error token `3`. -/
theorem c7_classify_fallback_witness :
    memberDecision (fun _ => Except.error 3) (fun _ => false) ⟨true, [], none⟩
      memberBadName = .error (.unrecognised 0x44 3) :=
  (c7_classify_fallback_order (fun _ => Except.error 3) (fun _ => false)
    ⟨true, [], none⟩ memberBadName rfl (by decide)).2.2 3 rfl rfl

/-- Claim C8: the section scan reports an import section exactly when some
section's resolved name starts with the raw bytes `.idata$`; and under
`exclude_idata`, a member that is not offset-excluded is excluded whenever
its payload parses as an object whose scan finds such a section, or fails
object parsing but passes the import-descriptor parse. -/
theorem c8_idata_detection :
    (∀ (secs : List CoffSection) (b : Bool), idataScan secs = .ok b →
        (b = true ↔ ∃ s ∈ secs, ∃ n, s.nameRes = Except.ok n ∧
          hasPfx idataPfx n = true))
    ∧ (∀ (coffParse : List Nat → Except Nat (List CoffSection))
        (importParse : List Nat → Bool) (opts : CreateOptions) (m : ArchiveMember),
        opts.exclude_idata = true →
        (m.offset % 2 ^ 32) ∉ opts.exclude_offsets →
        ((∃ secs, coffParse m.payload = .ok secs ∧ idataScan secs = .ok true) ∨
          (∃ e, coffParse m.payload = .error e ∧ importParse m.payload = true)) →
        memberDecision coffParse importParse opts m = .ok true) := by
  constructor
  · intro secs
    induction secs with
    | nil =>
      intro b hb
      simp only [idataScan] at hb
      cases hb
      simp
    | cons s rest ih =>
      intro b hb
      simp only [idataScan] at hb
      cases hn : s.nameRes with
      | error e =>
        simp only [hn] at hb
        exact Except.noConfusion hb
      | ok n =>
        simp only [hn] at hb
        by_cases hp : hasPfx idataPfx n = true
        · rw [if_pos hp] at hb
          cases hb
          simp only [true_iff]
          exact ⟨s, List.mem_cons_self s rest, n, hn, hp⟩
        · rw [if_neg hp] at hb
          have hrest := ih b hb
          constructor
          · intro h1
            obtain ⟨s', hs', n', hn', hp'⟩ := hrest.mp h1
            exact ⟨s', List.mem_cons_of_mem s hs', n', hn', hp'⟩
          · rintro ⟨s', hs', n', hn', hp'⟩
            rcases List.mem_cons.mp hs' with h | h
            · subst h
              rw [hn] at hn'
              cases hn'
              exact absurd hp' hp
            · exact hrest.mpr ⟨s', h, n', hn', hp'⟩
  · intro co im opts m hid hoff hcase
    have key :
        memberDecision co im opts m =
          match co m.payload with
          | .ok secs =>
            match idataScan secs with
            | .error e => .error (.sectionName m.offset e)
            | .ok b => .ok b
          | .error e =>
            if im m.payload then .ok true else .error (.unrecognised m.offset e) := by
      unfold memberDecision
      rw [if_neg hoff, if_pos hid]
    rcases hcase with ⟨secs, hsecs, hscan⟩ | ⟨e, he, him⟩
    · rw [key]
      simp [hsecs, hscan]
    · rw [key]
      simp [he, him]

/-- Witness for C8: the iff applied to a concrete section table containing
`.idata$2`, and the exclusion rule applied to a member whose payload parses
to that table. -/
theorem c8_idata_detection_witness :
    (true = true ↔ ∃ s ∈ [CoffSection.mk (Except.ok [0x2e, 0x69, 0x64, 0x61, 0x74, 0x61, 0x24, 0x32])],
        ∃ n, s.nameRes = Except.ok n ∧ hasPfx idataPfx n = true)
    ∧ memberDecision
        (fun _ => .ok [CoffSection.mk (Except.ok [0x2e, 0x69, 0x64, 0x61, 0x74, 0x61, 0x24, 0x32])])
        (fun _ => false) ⟨true, [], none⟩ memberBadName = .ok true :=
  ⟨c8_idata_detection.1 _ true rfl,
    c8_idata_detection.2 _ _ _ _ rfl (by decide)
      (Or.inl ⟨_, rfl, rfl⟩)⟩

/-- Splitting a list by a predicate and its pointwise negation accounts for
every element. -/
theorem length_filter_add_length_filter_of {α : Type} (p q : α → Bool) :
    ∀ l : List α, (∀ a ∈ l, q a = !p a) →
      (l.filter p).length + (l.filter q).length = l.length := by
  intro l
  induction l with
  | nil => simp
  | cons a t ih =>
    intro h
    have ha := h a (List.mem_cons_self a t)
    have ht := ih fun x hx => h x (List.mem_cons_of_mem a hx)
    cases hpa : p a <;> rw [hpa] at ha <;> simp [List.filter_cons, hpa, ha] <;> omega

/-- Characterisation of the member loop on success: `included_members` is
the stable sub-list of decision-kept members, `extracted_members` is the
stable sub-list of decision-excluded members when `save_excluded` is set and
empty otherwise, and every member's decision succeeded. -/
theorem processMembers_ok_char
    (co : List Nat → Except Nat (List CoffSection)) (im : List Nat → Bool)
    (opts : CreateOptions) :
    ∀ (ms : List ArchiveMember) (ext inc : List NewMember),
      processMembers co im opts ms = .ok (ext, inc) →
      ext = (if opts.save_excluded.isSome then
          (ms.filter fun m =>
            decide (memberDecision co im opts m = Except.ok true)).map newMember
        else [])
      ∧ inc = (ms.filter fun m =>
          decide (memberDecision co im opts m = Except.ok false)).map newMember
      ∧ ∀ m ∈ ms, memberDecision co im opts m = .ok true
          ∨ memberDecision co im opts m = .ok false := by
  intro ms
  induction ms with
  | nil =>
    intro ext inc h
    simp only [processMembers] at h
    cases h
    refine ⟨by simp, by simp, by simp⟩
  | cons m rest ih =>
    intro ext inc h
    simp only [processMembers] at h
    cases hd : memberDecision co im opts m with
    | error e =>
      simp only [hd] at h
      exact Except.noConfusion h
    | ok excl =>
      simp only [hd] at h
      cases hr : processMembers co im opts rest with
      | error e =>
        simp only [hr] at h
        exact Except.noConfusion h
      | ok pr =>
        obtain ⟨ext', inc'⟩ := pr
        simp only [hr] at h
        obtain ⟨hext', hinc', hall'⟩ := ih ext' inc' hr
        have hallm : ∀ x ∈ m :: rest, memberDecision co im opts x = .ok true
            ∨ memberDecision co im opts x = .ok false := by
          intro x hx
          rcases List.mem_cons.mp hx with hx | hx
          · subst hx
            cases excl
            · exact Or.inr hd
            · exact Or.inl hd
          · exact hall' x hx
        cases excl with
        | true =>
          cases hs : opts.save_excluded.isSome with
          | true =>
            rw [hs] at h
            simp only [if_pos rfl, if_true] at h
            cases h
            refine ⟨?_, ?_, hallm⟩
            · rw [hs] at hext'
              simp [List.filter_cons, hd, hext']
            · simp [List.filter_cons, hd, hinc']
          | false =>
            rw [hs] at h
            simp only [if_true, Bool.false_eq_true, if_false] at h
            cases h
            refine ⟨?_, ?_, hallm⟩
            · rw [hs] at hext'
              simpa using hext'
            · simp [List.filter_cons, hd, hinc']
        | false =>
          simp only [Bool.false_eq_true, if_false] at h
          cases h
          refine ⟨?_, ?_, hallm⟩
          · simp [List.filter_cons, hd, hext']
          · simp [List.filter_cons, hd, hinc']

/-- Claim C6: the member loop computes a stable partition — the kept list is
the order-preserving filter of the decision-kept members, the excluded list
is the order-preserving filter of the decision-excluded members (empty when
`save_excluded` is unset), each member satisfies exactly one of the two
filter predicates (so none is routed to both lists), the lengths sum to the
input length when the excluded set is captured, and the kept list is never
longer than the input. -/
theorem c6_stable_partition :
    ∀ (co : List Nat → Except Nat (List CoffSection)) (im : List Nat → Bool)
      (opts : CreateOptions) (ms : List ArchiveMember) (ext inc : List NewMember),
      processMembers co im opts ms = .ok (ext, inc) →
      inc = (ms.filter fun m =>
          decide (memberDecision co im opts m = Except.ok false)).map newMember
      ∧ ext = (if opts.save_excluded.isSome then
          (ms.filter fun m =>
            decide (memberDecision co im opts m = Except.ok true)).map newMember
        else [])
      ∧ (∀ m ∈ ms, decide (memberDecision co im opts m = Except.ok false)
          = !decide (memberDecision co im opts m = Except.ok true))
      ∧ (opts.save_excluded.isSome = true → inc.length + ext.length = ms.length)
      ∧ inc.length ≤ ms.length := by
  intro co im opts ms ext inc h
  obtain ⟨hext, hinc, hall⟩ := processMembers_ok_char co im opts ms ext inc h
  have hcompl : ∀ m ∈ ms, decide (memberDecision co im opts m = Except.ok false)
      = !decide (memberDecision co im opts m = Except.ok true) := by
    intro m hm
    rcases hall m hm with h1 | h1 <;> rw [h1] <;> decide
  refine ⟨hinc, hext, hcompl, ?_, ?_⟩
  · intro hs
    rw [hinc, hext, if_pos hs]
    simp only [List.length_map]
    have := length_filter_add_length_filter_of
      (fun m => decide (memberDecision co im opts m = Except.ok true))
      (fun m => decide (memberDecision co im opts m = Except.ok false)) ms hcompl
    omega
  · rw [hinc]
    simp only [List.length_map]
    exact List.length_filter_le _ ms

/-- Witness for C6 on a one-member archive whose member is kept. -/
theorem c6_stable_partition_witness :
    ([newMember memberGoodName] : List NewMember) =
      (([memberGoodName].filter fun m =>
        decide (memberDecision (fun _ => .ok []) (fun _ => false) ⟨true, [], some 9⟩ m
          = Except.ok false)).map newMember)
    ∧ ([] : List NewMember) = (if (some 9 : Option Nat).isSome then
        (([memberGoodName].filter fun m =>
          decide (memberDecision (fun _ => .ok []) (fun _ => false) ⟨true, [], some 9⟩ m
            = Except.ok true)).map newMember)
      else [])
    ∧ (∀ m ∈ [memberGoodName],
        decide (memberDecision (fun _ => .ok []) (fun _ => false) ⟨true, [], some 9⟩ m
          = Except.ok false)
        = !decide (memberDecision (fun _ => .ok []) (fun _ => false) ⟨true, [], some 9⟩ m
          = Except.ok true))
    ∧ ((some 9 : Option Nat).isSome = true →
        ([newMember memberGoodName] : List NewMember).length + ([] : List NewMember).length
          = [memberGoodName].length)
    ∧ ([newMember memberGoodName] : List NewMember).length ≤ [memberGoodName].length :=
  c6_stable_partition (fun _ => .ok []) (fun _ => false) ⟨true, [], some 9⟩
    [memberGoodName] [] [newMember memberGoodName] rfl

/-- Claim C2, counterexample: a member whose payload parses neither as a COFF
object nor as an import descriptor does NOT make the run fail when
`exclude_idata` is false (first run) or when the member is offset-excluded
(second run) — in both runs classification is skipped, the run succeeds and
an output archive is produced, contradicting the claim that classification
always occurs and such payloads always abort the run. -/
theorem c2_unrecognized_counterexample :
    createLib (fun _ => .ok [memberGoodName]) (fun _ => .error 7) (fun _ => false)
      (fun _ => .ok [1]) (fun _ => true) ⟨false, [], none⟩ 5 [] = (.ok (), [(5, [1])])
    ∧ createLib (fun _ => .ok [memberWithMeta]) (fun _ => .error 7) (fun _ => false)
      (fun _ => .ok [1]) (fun _ => true) ⟨true, [0x44], none⟩ 5 [] = (.ok (), [(5, [1])]) :=
  ⟨rfl, rfl⟩

/-- Claim C2 (amended): classification happens only for members reached with
`exclude_idata` set whose offset is not in `exclude_offsets`; for such a
member, a payload that fails both the object parse and the import parse
aborts the whole run with the `unrecognised` error (even when earlier
members processed successfully) and no output file is written. -/
theorem c2_unrecognized_amended :
    ∀ (decode : List Nat → Except Nat (List ArchiveMember))
      (co : List Nat → Except Nat (List CoffSection)) (im : List Nat → Bool)
      (encode : List NewMember → Except Nat (List Nat)) (writeOk : Nat → Bool)
      (opts : CreateOptions) (outLib : Nat) (data : List Nat)
      (pre post : List ArchiveMember) (m : ArchiveMember) (e : Nat),
      decode data = .ok (pre ++ m :: post) →
      (∀ m' ∈ pre, ∃ b, memberDecision co im opts m' = .ok b) →
      opts.exclude_idata = true →
      (m.offset % 2 ^ 32) ∉ opts.exclude_offsets →
      co m.payload = .error e →
      im m.payload = false →
      createLib decode co im encode writeOk opts outLib data =
        (.error (.unrecognised m.offset e), []) := by
  intro de co im en wo opts outLib data pre post m e hde hpre hid hoff hco him
  have hdec : memberDecision co im opts m = .error (.unrecognised m.offset e) := by
    unfold memberDecision
    rw [if_neg hoff, if_pos hid]
    simp [hco, him]
  have hproc : ∀ pre' : List ArchiveMember,
      (∀ m' ∈ pre', ∃ b, memberDecision co im opts m' = .ok b) →
      processMembers co im opts (pre' ++ m :: post) =
        .error (.unrecognised m.offset e) := by
    intro pre'
    induction pre' with
    | nil =>
      intro _
      simp only [List.nil_append, processMembers, hdec]
    | cons a t ih =>
      intro hp
      obtain ⟨b, hb⟩ := hp a (List.mem_cons_self a t)
      have ht := ih fun m' hm' => hp m' (List.mem_cons_of_mem a hm')
      simp only [List.cons_append, processMembers, hb, List.append_eq, ht]
  unfold createLib
  simp only [hde, hproc pre hpre]

/-- Witness for the amended C2: a two-member archive whose first member
classifies fine and whose second member fails both parses makes the whole
run fail with `unrecognised` at the second member's offset, writing
nothing — even though `save_excluded` was requested. -/
theorem c2_unrecognized_amended_witness :
    createLib (fun _ => .ok [memberGoodName, memberBadName])
      (fun p => if p = [] then .ok [] else .error 7) (fun _ => false)
      (fun _ => .ok [1]) (fun _ => true) ⟨true, [], some 3⟩ 5 [] =
      (.error (.unrecognised 0x44 7), []) :=
  c2_unrecognized_amended (fun _ => .ok [memberGoodName, memberBadName])
    (fun p => if p = [] then .ok [] else .error 7) (fun _ => false)
    (fun _ => .ok [1]) (fun _ => true) ⟨true, [], some 3⟩ 5 []
    [memberGoodName] [] memberBadName 7 rfl
    (by
      intro m' hm'
      rw [List.mem_singleton] at hm'
      subst hm'
      exact ⟨false, rfl⟩)
    rfl (by decide) rfl rfl

/-- Claim C1, counterexample: with `save_excluded` requested, a run in which
the excluded archive is written successfully and the write of the kept
archive then fails returns an error even though an output file (the
captured-excluded archive at path `0`) has already been written — the
pipeline is not "all outputs or none". -/
theorem c1_partial_output_counterexample :
    createLib (fun _ => .ok []) (fun _ => .error 7) (fun _ => false)
      (fun _ => .ok [2]) (fun p => p == 0) ⟨false, [], some 0⟩ 1 [] =
      (.error (.writeErr 1), [(0, [2])])
    ∧ [(0, ([2] : List Nat))] ≠ [] := by
  constructor
  · rfl
  · decide

/-- Claim C1 (amended): on a failing run nothing has been written, except
that when the failure happens after the captured-excluded archive was
written, exactly that one file exists; the kept archive is never written on
a failing run. -/
theorem c1_no_partial_output_amended :
    ∀ (decode : List Nat → Except Nat (List ArchiveMember))
      (co : List Nat → Except Nat (List CoffSection)) (im : List Nat → Bool)
      (en : List NewMember → Except Nat (List Nat)) (wo : Nat → Bool)
      (opts : CreateOptions) (outLib : Nat) (data : List Nat)
      (err : CreateError) (w : List (Nat × List Nat)),
      createLib decode co im en wo opts outLib data = (.error err, w) →
      w = [] ∨
        ∃ p ms ext inc bufE, opts.save_excluded = some p ∧ decode data = .ok ms ∧
          processMembers co im opts ms = .ok (ext, inc) ∧ en ext = .ok bufE ∧
          w = [(p, bufE)] := by
  intro de co im en wo opts outLib data err w h
  unfold createLib at h
  cases hde : de data with
  | error e =>
    simp only [hde] at h
    injection h with h1 h2
    exact Or.inl h2.symm
  | ok ms =>
    simp only [hde] at h
    cases hpm : processMembers co im opts ms with
    | error e =>
      simp only [hpm] at h
      injection h with h1 h2
      exact Or.inl h2.symm
    | ok pr =>
      obtain ⟨ext, inc⟩ := pr
      simp only [hpm] at h
      cases hs : opts.save_excluded with
      | none =>
        simp only [hs] at h
        cases hei : en inc with
        | error e2 =>
          simp only [hei] at h
          injection h with h1 h2
          exact Or.inl h2.symm
        | ok bufK =>
          simp only [hei] at h
          cases hw : wo outLib with
          | true =>
            simp only [hw, if_true] at h
            injection h with h1 h2
            exact Except.noConfusion h1
          | false =>
            simp only [hw, Bool.false_eq_true, if_false] at h
            injection h with h1 h2
            exact Or.inl h2.symm
      | some p =>
        simp only [hs] at h
        cases hee : en ext with
        | error e2 =>
          simp only [hee] at h
          injection h with h1 h2
          exact Or.inl h2.symm
        | ok bufE =>
          simp only [hee] at h
          cases hwp : wo p with
          | false =>
            simp only [hwp, Bool.false_eq_true, if_false] at h
            injection h with h1 h2
            exact Or.inl h2.symm
          | true =>
            simp only [hwp, if_true] at h
            cases hei : en inc with
            | error e2 =>
              simp only [hei] at h
              injection h with h1 h2
              exact Or.inr ⟨p, ms, ext, inc, bufE, rfl, rfl, hpm, hee, h2.symm⟩
            | ok bufK =>
              simp only [hei] at h
              cases hw : wo outLib with
              | true =>
                simp only [hw, if_true] at h
                injection h with h1 h2
                exact Except.noConfusion h1
              | false =>
                simp only [hw, Bool.false_eq_true, if_false] at h
                injection h with h1 h2
                exact Or.inr ⟨p, ms, ext, inc, bufE, rfl, rfl, hpm, hee, h2.symm⟩

/-- Witness for the amended C1 on a failing run that wrote nothing. -/
theorem c1_no_partial_output_amended_witness :
    ([] : List (Nat × List Nat)) = [] ∨
      ∃ p ms ext inc bufE, (none : Option Nat) = some p
        ∧ (Except.ok [] : Except Nat (List ArchiveMember)) = .ok ms
        ∧ processMembers (fun _ => .ok []) (fun _ => false) ⟨false, [], none⟩ ms
            = .ok (ext, inc)
        ∧ (Except.ok [2] : Except Nat (List Nat)) = .ok bufE
        ∧ ([] : List (Nat × List Nat)) = [(p, bufE)] :=
  c1_no_partial_output_amended (fun _ => .ok []) (fun _ => .ok []) (fun _ => false)
    (fun _ => .ok [2]) (fun _ => false) ⟨false, [], none⟩ 1 [] (.writeErr 1) [] rfl

/-- Claim C9: listing is a deterministic pure function of the archive bytes:
equal inputs give equal listings, and on a successful decode the listing is
exactly the per-member `(offset, size, name)` triple in container order —
no classification function is involved in `listLib` at all. -/
theorem c9_list_deterministic :
    ∀ (decode : List Nat → Except Nat (List ArchiveMember)) (d1 d2 : List Nat),
      d1 = d2 →
      listLib decode d1 = listLib decode d2
      ∧ (∀ ms, decode d1 = .ok ms →
          listLib decode d1 =
            .ok (ms.map fun m => (m.offset, m.size, utf8LossyBytes m.name))) := by
  intro de d1 d2 h
  subst h
  refine ⟨rfl, fun ms hm => ?_⟩
  unfold listLib
  simp only [hm]

/-- Witness for C9 on a concrete one-member archive. -/
theorem c9_list_deterministic_witness :
    listLib (fun _ => .ok [memberGoodName]) [] = listLib (fun _ => .ok [memberGoodName]) []
    ∧ listLib (fun _ => .ok [memberGoodName]) [] = .ok [(0, 0, [0x61, 0xC3, 0xA9])] :=
  ⟨(c9_list_deterministic (fun _ => .ok [memberGoodName]) [] [] rfl).1,
    (c9_list_deterministic (fun _ => .ok [memberGoodName]) [] [] rfl).2
      [memberGoodName] rfl⟩

/-- Claim C10: whenever `save_excluded` names a path and the run succeeds,
the captured-excluded archive is the first file written: the encoded
excluded member list (possibly empty) is written to that path. -/
theorem c10_save_excluded_always_written :
    ∀ (decode : List Nat → Except Nat (List ArchiveMember))
      (co : List Nat → Except Nat (List CoffSection)) (im : List Nat → Bool)
      (en : List NewMember → Except Nat (List Nat)) (wo : Nat → Bool)
      (opts : CreateOptions) (outLib : Nat) (data : List Nat)
      (w : List (Nat × List Nat)) (p : Nat),
      createLib decode co im en wo opts outLib data = (.ok (), w) →
      opts.save_excluded = some p →
      ∃ ms ext inc bufE, decode data = .ok ms
        ∧ processMembers co im opts ms = .ok (ext, inc)
        ∧ en ext = .ok bufE ∧ w.head? = some (p, bufE) := by
  intro de co im en wo opts outLib data w p h hp
  unfold createLib at h
  cases hde : de data with
  | error e =>
    simp only [hde] at h
    injection h with h1 h2
    exact Except.noConfusion h1
  | ok ms =>
    simp only [hde] at h
    cases hpm : processMembers co im opts ms with
    | error e =>
      simp only [hpm] at h
      injection h with h1 h2
      exact Except.noConfusion h1
    | ok pr =>
      obtain ⟨ext, inc⟩ := pr
      simp only [hpm] at h
      cases hs : opts.save_excluded with
      | none =>
        rw [hs] at hp
        exact Option.noConfusion hp
      | some p' =>
        rw [hs] at hp
        injection hp with hp'
        subst hp'
        simp only [hs] at h
        cases hee : en ext with
        | error e2 =>
          simp only [hee] at h
          injection h with h1 h2
          exact Except.noConfusion h1
        | ok bufE =>
          simp only [hee] at h
          cases hwp : wo p' with
          | false =>
            simp only [hwp, Bool.false_eq_true, if_false] at h
            injection h with h1 h2
            exact Except.noConfusion h1
          | true =>
            simp only [hwp, if_true] at h
            cases hei : en inc with
            | error e2 =>
              simp only [hei] at h
              injection h with h1 h2
              exact Except.noConfusion h1
            | ok bufK =>
              simp only [hei] at h
              cases hw : wo outLib with
              | false =>
                simp only [hw, Bool.false_eq_true, if_false] at h
                injection h with h1 h2
                exact Except.noConfusion h1
              | true =>
                simp only [hw, if_true] at h
                injection h with h1 h2
                refine ⟨ms, ext, inc, bufE, rfl, hpm, hee, ?_⟩
                rw [← h2]
                rfl

/-- Witness for C10: a successful run with zero excluded members still
writes the (empty) captured-excluded archive to path `0` first. -/
theorem c10_save_excluded_always_written_witness :
    ∃ ms ext inc bufE,
      (Except.ok [memberGoodName] : Except Nat (List ArchiveMember)) = .ok ms
      ∧ processMembers (fun _ => .ok []) (fun _ => false) ⟨true, [], some 0⟩ ms
          = .ok (ext, inc)
      ∧ (Except.ok [9] : Except Nat (List Nat)) = .ok bufE
      ∧ ([(0, [9]), (1, [9])] : List (Nat × List Nat)).head? = some (0, bufE) :=
  c10_save_excluded_always_written (fun _ => .ok [memberGoodName]) (fun _ => .ok [])
    (fun _ => false) (fun _ => .ok [9]) (fun _ => true) ⟨true, [], some 0⟩ 1 []
    [(0, [9]), (1, [9])] 0 rfl rfl

end Winlib
